import Mathlib

set_option maxHeartbeats 1000000

/-!
Verification of the sequential file-scan stream adapter
(src/native-engine/datafusion-ext/src/file_format/file_stream.rs).

The Rust `FileStream` is a polling state machine over a queue of
partitioned files.  We embed it shallowly:

* a `RecordBatch` is its list of rows (rows are abstract, here `Nat`);
* `ScalarValue` partition values and error payloads are abstract `Nat`s;
* the `ReaderFuture` returned by `FormatReader::open`, and the
  `BoxStream` it resolves to, are modelled as already-resolved values
  (an `Except` of a list of fallible batches).  `Poll::Pending`
  suspension is elided: a pending future/sub-stream simply re-enters the
  same state in the source, so the ready-sequence semantics is unchanged;
* the `PartitionColumnProjector` is an explicit function parameter `pc`;
* metrics, schemas and the filesystem handle are elided — no claim
  mentions them.

`poll_inner` below is the `FileStream::poll_inner` loop with the state
mutation made explicit: `goIdle` is the loop re-entering the `Idle` arm
(pop a file, open it, fall through `Open` to `Scan`), `processResult` is
the `Scan`/`Some(result)` arm with the row-limit governor.
-/

/-- A record batch, modelled as its list of rows. -/
abbrev Batch := List Nat

/-- RecordBatch::slice(offset, length): a zero-copy row-range slice. -/
def sliceBatch (b : Batch) (offset len : Nat) : Batch :=
  (b.drop offset).take len

/-- A ScalarValue, modelled abstractly. -/
abbrev Scalar := Nat

/-- An error payload (ArrowError / DataFusionError), modelled abstractly. -/
abbrev Err := Nat

/-- PartitionedFile: object metadata, optional byte range, partition values. -/
structure PartitionedFile where
  object_meta : Nat
  range : Option (Nat × Nat)
  partition_values : List Scalar
deriving DecidableEq, Repr

deriving instance DecidableEq for Except

/-- The outcome of a `ReaderFuture` from `FormatReader::open`, modelled as
already resolved: either an error or the full list of fallible batches the
resulting `BoxStream` will yield, in order. -/
abbrev OpenOutcome := Except Err (List (Except Err Batch))

/-- FormatReader::open as a function of the file's object metadata and
byte range (the shared `FsProvider` is elided). -/
abbrev Opener := Nat → Option (Nat × Nat) → OpenOutcome

/-- PartitionColumnProjector::project. -/
abbrev Projector := Batch → List Scalar → Except Err Batch

/-- FileStreamState from the source. -/
inductive FileStreamState where
  | Idle
  | Open (future : OpenOutcome) (partition_values : List Scalar)
  | Scan (partition_values : List Scalar) (reader : List (Except Err Batch))
  | Error
  | Limit
deriving DecidableEq, Repr

/-- FileStream: the file queue, the remaining row budget and the state
(schema, projector, fs provider and metrics fields are elided; the
projector and opener are passed to `poll_inner` as parameters). -/
structure FileStream where
  file_iter : List PartitionedFile
  remain : Option Nat
  state : FileStreamState
deriving DecidableEq, Repr

/-- FileStream::new: queue from the selected file group, `remain` from the
config's limit, initial state `Idle`. -/
def FileStream.new (files : List PartitionedFile) (limit : Option Nat) :
    FileStream :=
  ⟨files, limit, .Idle⟩

/-- The `Scan`/`Some(result)` arm of `poll_inner` (source lines 174–201):
the raw result is chained through the partition-column projector, then the
row-limit governor runs on the projected batch; an error (decode or
projection) moves the state to `Error`. -/
def processResult (pc : Projector) (files : List PartitionedFile)
    (remain : Option Nat) (pv : List Scalar)
    (res : Except Err Batch) (rest : List (Except Err Batch)) :
    Option (Except Err Batch) × FileStream :=
  match res.bind (fun b => pc b pv) with
  | .error e => (some (.error e), ⟨files, remain, .Error⟩)
  | .ok batch =>
    match remain with
    | none => (some (.ok batch), ⟨files, none, .Scan pv rest⟩)
    | some r =>
      if r > batch.length then
        (some (.ok batch), ⟨files, some (r - batch.length), .Scan pv rest⟩)
      else
        (some (.ok (sliceBatch batch 0 r)), ⟨files, some 0, .Limit⟩)

/-- The `Idle` arm of the `poll_inner` loop (source lines 142–158): pop the
front file, invoke the opener, and continue the loop — an open error is
returned from the (stored) `Open` state, an empty sub-stream falls back to
`Idle`, and a first result is processed in `Scan`. -/
def goIdle (pc : Projector) (opener : Opener) (remain : Option Nat) :
    List PartitionedFile → Option (Except Err Batch) × FileStream
  | [] => (none, ⟨[], remain, .Idle⟩)
  | f :: fs =>
    match opener f.object_meta f.range with
    | .error e => (some (.error e), ⟨fs, remain, .Error⟩)
    | .ok [] => goIdle pc opener remain fs
    | .ok (res :: rest) => processResult pc fs remain f.partition_values res rest

/-- FileStream::poll_inner (source lines 136–209), with the internal loop
unrolled into `goIdle`/`processResult`.  Futures and sub-streams being
modelled as resolved values, the `ready!` suspension points disappear:
each call returns `some` element or `none` (end-of-sequence). -/
def poll_inner (pc : Projector) (opener : Opener) (s : FileStream) :
    Option (Except Err Batch) × FileStream :=
  match s.state with
  | .Idle => goIdle pc opener s.remain s.file_iter
  | .Open future pv =>
    match future with
    | .error e => (some (.error e), ⟨s.file_iter, s.remain, .Error⟩)
    | .ok [] => goIdle pc opener s.remain s.file_iter
    | .ok (res :: rest) => processResult pc s.file_iter s.remain pv res rest
  | .Scan pv reader =>
    match reader with
    | [] => goIdle pc opener s.remain s.file_iter
    | res :: rest => processResult pc s.file_iter s.remain pv res rest
  | .Error => (none, s)
  | .Limit => (none, s)

/-- Length of the sub-stream an opener will produce for a file (0 for an
open error); used only for the termination measure of the run. -/
def readerLen (opener : Opener) (f : PartitionedFile) : Nat :=
  match opener f.object_meta f.range with
  | .ok rs => rs.length
  | .error _ => 0

/-- Measure contribution of one queued file. -/
def fileW (opener : Opener) (f : PartitionedFile) : Nat :=
  2 + readerLen opener f

/-- Measure contribution of the current state. -/
def stateM : FileStreamState → Nat
  | .Idle => 0
  | .Open (.ok rs) _ => rs.length + 1
  | .Open (.error _) _ => 1
  | .Scan _ rd => rd.length + 1
  | .Error => 0
  | .Limit => 0

/-- Termination measure for a full run of the stream: every poll that
emits an element strictly decreases it. -/
def M (opener : Opener) (s : FileStream) : Nat :=
  (s.file_iter.map (fileW opener)).sum + stateM s.state

/-- A fuel-bounded run of the stream: repeatedly poll, collecting the
emitted elements, until end-of-sequence (or fuel runs out, which never
happens with fuel above the measure `M`). -/
def runFuel (pc : Projector) (opener : Opener) :
    Nat → FileStream → List (Except Err Batch) × FileStream
  | 0, s => ([], s)
  | fuel + 1, s =>
    match poll_inner pc opener s with
    | (none, s') => ([], s')
    | (some x, s') =>
      let w := runFuel pc opener fuel s'
      (x :: w.1, w.2)

/-- The full run of the stream from a given state: the list of elements
the outer stream yields before end-of-sequence, and the final state. -/
def runStream (pc : Projector) (opener : Opener) (s : FileStream) :
    List (Except Err Batch) × FileStream :=
  runFuel pc opener (M opener s + 1) s

/-! ### Measure lemmas: every poll that emits an element decreases `M` -/

theorem processResult_fields (pc : Projector) (files : List PartitionedFile)
    (r : Option Nat) (pv : List Scalar) (res : Except Err Batch)
    (rest : List (Except Err Batch)) :
    (processResult pc files r pv res rest).2.file_iter = files ∧
      stateM (processResult pc files r pv res rest).2.state ≤ rest.length + 1 ∧
      (processResult pc files r pv res rest).1.isSome := by
  unfold processResult
  rcases res.bind (fun b => pc b pv) with e | batch
  · simp [stateM]
  · rcases r with _ | r
    · simp [stateM]
    · by_cases hr : r > batch.length <;> simp [hr, stateM]

theorem goIdle_M (pc : Projector) (opener : Opener) (r : Option Nat) :
    ∀ (files : List PartitionedFile) (x : Except Err Batch) (s' : FileStream),
      goIdle pc opener r files = (some x, s') →
      M opener s' < (files.map (fileW opener)).sum := by
  intro files
  induction files with
  | nil => intro x s' h; simp [goIdle] at h
  | cons f fs ih =>
    intro x s' h
    rcases ho : opener f.object_meta f.range with e | rs
    · simp only [goIdle, ho, Prod.mk.injEq] at h
      have hW : 2 ≤ fileW opener f := by simp [fileW]
      simp [← h.2, M, stateM]
      omega
    · rcases rs with _ | ⟨res, rest⟩
      · simp only [goIdle, ho] at h
        have := ih x s' h
        have hW : 2 ≤ fileW opener f := by simp [fileW]
        simp only [List.map_cons, List.sum_cons]
        omega
      · simp only [goIdle, ho] at h
        have hp := processResult_fields pc fs r f.partition_values res rest
        rw [h] at hp
        simp only [Prod.fst, Prod.snd] at hp
        have hW : fileW opener f = 2 + (rest.length + 1) := by
          simp [fileW, readerLen, ho]
        simp only [List.map_cons, List.sum_cons, M, hp.1, hW]
        omega

theorem poll_M (pc : Projector) (opener : Opener) (s : FileStream)
    (x : Except Err Batch) (s' : FileStream)
    (h : poll_inner pc opener s = (some x, s')) :
    M opener s' < M opener s := by
  rcases s with ⟨files, r, st⟩
  rcases st with _ | ⟨fut, pv⟩ | ⟨pv, reader⟩ | _ | _
  · have := goIdle_M pc opener r files x s' h
    simpa [M, stateM] using this
  · rcases fut with e | rs
    · simp only [poll_inner, Prod.mk.injEq] at h
      simp [← h.2, M, stateM]
    · rcases rs with _ | ⟨res, rest⟩
      · have := goIdle_M pc opener r files x s' h
        simp only [M, stateM] at *
        omega
      · simp only [poll_inner] at h
        have hp := processResult_fields pc files r pv res rest
        rw [h] at hp
        simp only [Prod.fst, Prod.snd] at hp
        have hs : stateM (FileStreamState.Open (Except.ok (res :: rest)) pv) =
            rest.length + 2 := rfl
        simp only [M, hp.1, hs]
        omega
  · rcases reader with _ | ⟨res, rest⟩
    · have := goIdle_M pc opener r files x s' h
      simp only [M, stateM] at *
      omega
    · simp only [poll_inner] at h
      have hp := processResult_fields pc files r pv res rest
      rw [h] at hp
      simp only [Prod.fst, Prod.snd] at hp
      have hs : stateM (FileStreamState.Scan pv (res :: rest)) = rest.length + 2 :=
        rfl
      simp only [M, hp.1, hs]
      omega
  · simp [poll_inner] at h
  · simp [poll_inner] at h

theorem runFuel_irrel (pc : Projector) (opener : Opener) :
    ∀ (f1 f2 : Nat) (s : FileStream),
      M opener s < f1 → M opener s < f2 →
      runFuel pc opener f1 s = runFuel pc opener f2 s := by
  intro f1
  induction f1 with
  | zero => intro f2 s h1 _; omega
  | succ g ih =>
    intro f2 s h1 h2
    rcases f2 with _ | h2n
    · omega
    · rw [runFuel, runFuel]
      rcases hp : poll_inner pc opener s with ⟨x, s'⟩
      rcases x with _ | x
      · rfl
      · have hM := poll_M pc opener s x s' hp
        have : runFuel pc opener g s' = runFuel pc opener h2n s' :=
          ih h2n s' (by omega) (by omega)
        simp [this]

theorem runStream_eq (pc : Projector) (opener : Opener) (s : FileStream) :
    runStream pc opener s =
      match poll_inner pc opener s with
      | (none, s') => ([], s')
      | (some x, s') =>
        let w := runStream pc opener s'
        (x :: w.1, w.2) := by
  unfold runStream
  rw [runFuel]
  rcases hp : poll_inner pc opener s with ⟨x, s'⟩
  rcases x with _ | x
  · rfl
  · have hM := poll_M pc opener s x s' hp
    have : runFuel pc opener (M opener s) s' =
        runFuel pc opener (M opener s' + 1) s' :=
      runFuel_irrel pc opener (M opener s) (M opener s' + 1) s' (by omega) (by omega)
    simp [this]

theorem run_none (pc : Projector) (opener : Opener) (s s' : FileStream)
    (h : poll_inner pc opener s = (none, s')) :
    runStream pc opener s = ([], s') := by
  rw [runStream_eq, h]

theorem run_some (pc : Projector) (opener : Opener) (s : FileStream)
    (x : Except Err Batch) (s' : FileStream)
    (h : poll_inner pc opener s = (some x, s')) :
    runStream pc opener s =
      (x :: (runStream pc opener s').1, (runStream pc opener s').2) := by
  rw [runStream_eq, h]

theorem run_congr (pc : Projector) (opener : Opener) (s1 s2 : FileStream)
    (h : poll_inner pc opener s1 = poll_inner pc opener s2) :
    runStream pc opener s1 = runStream pc opener s2 := by
  rw [runStream_eq pc opener s1, runStream_eq pc opener s2, h]

/-! ### The row-limit governor as a list transformer

`govern r cs` is what the `Some(result)` arm of `poll_inner` does to a
sequence of (already projected) batches: pass a batch through while the
budget strictly exceeds its row count, otherwise emit the prefix slice
and stop. -/

/-- Sum of the row counts of a list of batches. -/
def sumRows (l : List Batch) : Nat := (l.map List.length).sum

/-- The governor of `poll_inner` applied along a whole batch sequence. -/
def govern : Option Nat → List Batch → List Batch
  | none, cs => cs
  | some _, [] => []
  | some r, b :: cs =>
    if r > b.length then b :: govern (some (r - b.length)) cs
    else [sliceBatch b 0 r]

/-- Whether a run over batches `cs` with initial budget `r` ends in the
`Limit` state (a truncation event happens). -/
def TruncCond : Option Nat → List Batch → Prop
  | none, _ => False
  | some l, cs => cs ≠ [] ∧ l ≤ sumRows cs

/-- The budget left after a run that did not truncate. -/
def remainAfter : Option Nat → List Batch → Option Nat
  | none, _ => none
  | some l, cs => some (l - sumRows cs)

theorem sumRows_nil : sumRows [] = 0 := rfl

theorem sumRows_cons (b : Batch) (t : List Batch) :
    sumRows (b :: t) = b.length + sumRows t := by
  simp [sumRows]

theorem sumRows_append (u v : List Batch) :
    sumRows (u ++ v) = sumRows u + sumRows v := by
  simp [sumRows]

theorem govern_none (cs : List Batch) : govern none cs = cs := by
  cases cs <;> rfl

theorem govern_rows (cs : List Batch) :
    ∀ l : Nat, sumRows (govern (some l) cs) = min l (sumRows cs) := by
  induction cs with
  | nil => intro l; simp [govern, sumRows]
  | cons b t ih =>
    intro l
    by_cases hl : l > b.length
    · simp only [govern, if_pos hl, sumRows_cons, ih, sumRows_cons]
      omega
    · simp only [govern, if_neg hl, sumRows_cons, sumRows_nil, sumRows,
        List.map_cons, List.map_nil, List.sum_cons, List.sum_nil,
        sliceBatch, List.drop_zero, List.length_take]
      omega

theorem govern_flatten_isPre (r : Option Nat) (cs : List Batch) :
    (govern r cs).flatten <+: cs.flatten := by
  rcases r with _ | l
  · rw [govern_none]
  · induction cs generalizing l with
    | nil => exact List.prefix_refl _
    | cons b t ih =>
      by_cases hl : l > b.length
      · simp only [govern, if_pos hl, List.flatten_cons]
        rcases ih (l - b.length) with ⟨w, hw⟩
        exact ⟨w, by rw [List.append_assoc, hw]⟩
      · simp only [govern, if_neg hl, List.flatten_cons, List.flatten_nil,
          List.append_nil, sliceBatch, List.drop_zero]
        exact ( List.take_prefix l b).trans (List.prefix_append b t.flatten)

theorem govern_zero (cs : List Batch) (h : cs ≠ []) :
    govern (some 0) cs = [[]] := by
  rcases cs with _ | ⟨b, t⟩
  · exact absurd rfl h
  · simp [govern, sliceBatch]

/-! ### Good environments: every open succeeds, every sub-stream result is
`Ok`, and the projector is total -/

/-- A total (never failing) projector wrapped into the fallible interface. -/
def okProj (pcf : Batch → List Scalar → Batch) : Projector :=
  fun b pv => .ok (pcf b pv)

/-- All projected batches of a file group, in file order: the projector
applied to each batch of each file with that file's partition values. -/
def projFiles (pcf : Batch → List Scalar → Batch)
    (bs : PartitionedFile → List Batch) (files : List PartitionedFile) :
    List Batch :=
  (files.map (fun f => (bs f).map (fun b => pcf b f.partition_values))).flatten

/-- The opener yields, for every file of the group, a sub-stream of the
batches `bs f`, all of them `Ok`. -/
def envOk (opener : Opener) (bs : PartitionedFile → List Batch)
    (files : List PartitionedFile) : Prop :=
  ∀ f ∈ files, opener f.object_meta f.range = .ok ((bs f).map Except.ok)

theorem projFiles_nil (pcf : Batch → List Scalar → Batch)
    (bs : PartitionedFile → List Batch) : projFiles pcf bs [] = [] := rfl

theorem projFiles_cons (pcf : Batch → List Scalar → Batch)
    (bs : PartitionedFile → List Batch) (f : PartitionedFile)
    (fs : List PartitionedFile) :
    projFiles pcf bs (f :: fs) =
      (bs f).map (fun b => pcf b f.partition_values) ++ projFiles pcf bs fs := by
  simp [projFiles]

theorem sumRows_map_proj (pcf : Batch → List Scalar → Batch)
    (hlen : ∀ (b : Batch) (pv : List Scalar), (pcf b pv).length = b.length)
    (l : List Batch) (pv : List Scalar) :
    sumRows (l.map (fun b => pcf b pv)) = sumRows l := by
  induction l with
  | nil => rfl
  | cons b t ih => simp [sumRows_cons, ih, hlen]

theorem sumRows_projFiles (pcf : Batch → List Scalar → Batch)
    (bs : PartitionedFile → List Batch)
    (hlen : ∀ (b : Batch) (pv : List Scalar), (pcf b pv).length = b.length) :
    ∀ files : List PartitionedFile,
      sumRows (projFiles pcf bs files) = sumRows ((files.map bs).flatten) := by
  intro files
  induction files with
  | nil => rfl
  | cons f fs ih =>
    simp only [projFiles_cons, sumRows_append, ih, List.map_cons,
      List.flatten_cons, sumRows_append]
    rw [sumRows_map_proj pcf hlen]

theorem projFiles_eq_nil_iff (pcf : Batch → List Scalar → Batch)
    (bs : PartitionedFile → List Batch) (files : List PartitionedFile) :
    projFiles pcf bs files = [] ↔ (files.map bs).flatten = [] := by
  simp [projFiles, List.flatten_eq_nil_iff]

/-! ### Single-poll characterizations -/

theorem poll_idle_nil (pc : Projector) (opener : Opener) (r : Option Nat) :
    poll_inner pc opener ⟨[], r, .Idle⟩ = (none, ⟨[], r, .Idle⟩) := rfl

theorem poll_idle_cons (pc : Projector) (opener : Opener) (f : PartitionedFile)
    (fs : List PartitionedFile) (r : Option Nat) (rd : List (Except Err Batch))
    (ho : opener f.object_meta f.range = .ok rd) :
    poll_inner pc opener ⟨f :: fs, r, .Idle⟩ =
      poll_inner pc opener ⟨fs, r, .Scan f.partition_values rd⟩ := by
  cases rd <;> simp [poll_inner, goIdle, ho]

theorem poll_idle_openErr (pc : Projector) (opener : Opener) (f : PartitionedFile)
    (fs : List PartitionedFile) (r : Option Nat) (e : Err)
    (ho : opener f.object_meta f.range = .error e) :
    poll_inner pc opener ⟨f :: fs, r, .Idle⟩ =
      (some (.error e), ⟨fs, r, .Error⟩) := by
  simp [poll_inner, goIdle, ho]

theorem poll_open_resolveErr (pc : Projector) (opener : Opener)
    (files : List PartitionedFile) (r : Option Nat) (pv : List Scalar) (e : Err) :
    poll_inner pc opener ⟨files, r, .Open (.error e) pv⟩ =
      (some (.error e), ⟨files, r, .Error⟩) := rfl

theorem poll_open_resolveOk (pc : Projector) (opener : Opener)
    (files : List PartitionedFile) (r : Option Nat) (pv : List Scalar)
    (rd : List (Except Err Batch)) :
    poll_inner pc opener ⟨files, r, .Open (.ok rd) pv⟩ =
      poll_inner pc opener ⟨files, r, .Scan pv rd⟩ := by
  cases rd <;> rfl

theorem poll_scan_nil (pc : Projector) (opener : Opener)
    (files : List PartitionedFile) (r : Option Nat) (pv : List Scalar) :
    poll_inner pc opener ⟨files, r, .Scan pv []⟩ =
      poll_inner pc opener ⟨files, r, .Idle⟩ := rfl

theorem poll_scan_decodeErr (pc : Projector) (opener : Opener)
    (files : List PartitionedFile) (r : Option Nat) (pv : List Scalar) (e : Err)
    (rest : List (Except Err Batch)) :
    poll_inner pc opener ⟨files, r, .Scan pv (.error e :: rest)⟩ =
      (some (.error e), ⟨files, r, .Error⟩) := rfl

theorem poll_scan_projectErr (pc : Projector) (opener : Opener)
    (files : List PartitionedFile) (r : Option Nat) (pv : List Scalar)
    (b : Batch) (e : Err) (rest : List (Except Err Batch))
    (hb : pc b pv = .error e) :
    poll_inner pc opener ⟨files, r, .Scan pv (.ok b :: rest)⟩ =
      (some (.error e), ⟨files, r, .Error⟩) := by
  simp [poll_inner, processResult, Except.bind, hb]

theorem poll_scan_ok_none (pc : Projector) (opener : Opener)
    (files : List PartitionedFile) (pv : List Scalar) (b b' : Batch)
    (rest : List (Except Err Batch)) (hb : pc b pv = .ok b') :
    poll_inner pc opener ⟨files, none, .Scan pv (.ok b :: rest)⟩ =
      (some (.ok b'), ⟨files, none, .Scan pv rest⟩) := by
  simp [poll_inner, processResult, Except.bind, hb]

theorem poll_scan_ok_pass (pc : Projector) (opener : Opener)
    (files : List PartitionedFile) (pv : List Scalar) (b b' : Batch)
    (rest : List (Except Err Batch)) (r : Nat) (hb : pc b pv = .ok b')
    (h : b'.length < r) :
    poll_inner pc opener ⟨files, some r, .Scan pv (.ok b :: rest)⟩ =
      (some (.ok b'), ⟨files, some (r - b'.length), .Scan pv rest⟩) := by
  simp [poll_inner, processResult, Except.bind, hb, h]

theorem poll_scan_ok_trunc (pc : Projector) (opener : Opener)
    (files : List PartitionedFile) (pv : List Scalar) (b b' : Batch)
    (rest : List (Except Err Batch)) (r : Nat) (hb : pc b pv = .ok b')
    (h : r ≤ b'.length) :
    poll_inner pc opener ⟨files, some r, .Scan pv (.ok b :: rest)⟩ =
      (some (.ok (sliceBatch b' 0 r)), ⟨files, some 0, .Limit⟩) := by
  simp [poll_inner, processResult, Except.bind, hb, Nat.not_lt.mpr h]

theorem poll_terminal (pc : Projector) (opener : Opener) (s : FileStream)
    (h : s.state = .Error ∨ s.state = .Limit) :
    poll_inner pc opener s = (none, s) := by
  rcases s with ⟨files, r, st⟩
  rcases h with h | h <;> (simp only [] at h; subst h; rfl)

theorem run_terminal (pc : Projector) (opener : Opener) (s : FileStream)
    (h : s.state = .Error ∨ s.state = .Limit) :
    runStream pc opener s = ([], s) :=
  run_none pc opener s s (poll_terminal pc opener s h)

/-! ### Full-run refinement: the stream's run over a good environment is
exactly `govern` applied to the projected concatenation of the sub-streams -/

theorem govern_nil (r : Option Nat) : govern r [] = [] := by
  cases r <;> rfl

theorem remainAfter_nil (r : Option Nat) : remainAfter r [] = r := by
  cases r <;> simp [remainAfter, sumRows]

theorem truncCond_nil (r : Option Nat) : ¬ TruncCond r [] := by
  cases r <;> simp [TruncCond]

theorem sumRows_pos_ne_nil (T : List Batch) (h : 0 < sumRows T) : T ≠ [] := by
  rintro rfl
  simp [sumRows] at h

theorem truncCond_cons_pass (b : Batch) (T : List Batch) (l : Nat)
    (h : b.length < l) :
    TruncCond (some l) (b :: T) ↔ TruncCond (some (l - b.length)) T := by
  simp only [TruncCond, sumRows_cons]
  constructor
  · rintro ⟨-, hle⟩
    exact ⟨sumRows_pos_ne_nil T (by omega), by omega⟩
  · rintro ⟨-, hle⟩
    exact ⟨by simp, by omega⟩

/-- The three-part specification of draining a `Scan` state whose pending
reader holds the (all-`Ok`) batches `cs` and whose remaining queue will
contribute the projected batches `T2`: the emitted elements are the
governed projected sequence, and the final state is `Limit` exactly under
`TruncCond`. -/
def ScanSpec (pcf : Batch → List Scalar → Batch) (opener : Opener)
    (files : List PartitionedFile) (pv : List Scalar) (cs T2 : List Batch)
    (r : Option Nat) : Prop :=
  (runStream (okProj pcf) opener ⟨files, r, .Scan pv (cs.map Except.ok)⟩).1
      = (govern r (cs.map (fun b => pcf b pv) ++ T2)).map Except.ok
    ∧ (TruncCond r (cs.map (fun b => pcf b pv) ++ T2) →
        (runStream (okProj pcf) opener
            ⟨files, r, .Scan pv (cs.map Except.ok)⟩).2.remain = some 0
          ∧ (runStream (okProj pcf) opener
              ⟨files, r, .Scan pv (cs.map Except.ok)⟩).2.state = .Limit)
    ∧ (¬ TruncCond r (cs.map (fun b => pcf b pv) ++ T2) →
        (runStream (okProj pcf) opener ⟨files, r, .Scan pv (cs.map Except.ok)⟩).2
          = ⟨[], remainAfter r (cs.map (fun b => pcf b pv) ++ T2), .Idle⟩)

theorem scanSpec_cons (pcf : Batch → List Scalar → Batch) (opener : Opener)
    (files : List PartitionedFile) (pv : List Scalar) (T2 : List Batch)
    (b : Batch) (cs' : List Batch)
    (ih : ∀ r : Option Nat, ScanSpec pcf opener files pv cs' T2 r) :
    ∀ r : Option Nat, ScanSpec pcf opener files pv (b :: cs') T2 r := by
  intro r
  have hb : okProj pcf b pv = Except.ok (pcf b pv) := rfl
  rcases r with _ | l
  · obtain ⟨ih1, ih2, ih3⟩ := ih none
    have hp := poll_scan_ok_none (okProj pcf) opener files pv b (pcf b pv)
      (cs'.map Except.ok) hb
    have hrun := run_some (okProj pcf) opener
      ⟨files, none, .Scan pv ((b :: cs').map Except.ok)⟩ (.ok (pcf b pv))
      ⟨files, none, .Scan pv (cs'.map Except.ok)⟩ (by simpa using hp)
    refine ⟨?_, fun h => absurd h (by simp [TruncCond]), fun _ => ?_⟩
    · rw [hrun]
      simp only [govern_none] at ih1 ⊢
      simp [ih1]
    · rw [hrun]
      simp only []
      rw [ih3 (by simp [TruncCond])]
      simp [remainAfter]
  · by_cases hl : (pcf b pv).length < l
    · obtain ⟨ih1, ih2, ih3⟩ := ih (some (l - (pcf b pv).length))
      have hp := poll_scan_ok_pass (okProj pcf) opener files pv b (pcf b pv)
        (cs'.map Except.ok) l hb hl
      have hrun := run_some (okProj pcf) opener
        ⟨files, some l, .Scan pv ((b :: cs').map Except.ok)⟩ (.ok (pcf b pv))
        ⟨files, some (l - (pcf b pv).length), .Scan pv (cs'.map Except.ok)⟩
        (by simpa using hp)
      have hiff := truncCond_cons_pass (pcf b pv)
        (cs'.map (fun x => pcf x pv) ++ T2) l hl
      refine ⟨?_, fun h => ?_, fun h => ?_⟩
      · rw [hrun]
        simp only [List.map_cons, List.cons_append, govern, if_pos hl, ih1,
          List.map_cons, List.append_eq]
      · rw [hrun]
        simp only [List.map_cons, List.cons_append] at h
        exact ih2 (hiff.mp h)
      · rw [hrun]
        simp only [List.map_cons, List.cons_append] at h ⊢
        rw [ih3 (fun hc => h (hiff.mpr hc))]
        have harith :
            l - (pcf b pv).length -
                sumRows (cs'.map (fun x => pcf x pv) ++ T2) =
              l - ((pcf b pv).length +
                sumRows (cs'.map (fun x => pcf x pv) ++ T2)) := by
          omega
        simp [remainAfter, sumRows_cons, harith]
    · have hp := poll_scan_ok_trunc (okProj pcf) opener files pv b (pcf b pv)
        (cs'.map Except.ok) l hb (by omega)
      have hrun := run_some (okProj pcf) opener
        ⟨files, some l, .Scan pv ((b :: cs').map Except.ok)⟩
        (.ok (sliceBatch (pcf b pv) 0 l)) ⟨files, some 0, .Limit⟩
        (by simpa using hp)
      have hfin := run_terminal (okProj pcf) opener ⟨files, some 0, .Limit⟩
        (Or.inr rfl)
      refine ⟨?_, fun _ => ?_, fun h => ?_⟩
      · rw [hrun, hfin]
        simp only [List.map_cons, List.cons_append, govern, if_neg hl]
        simp
      · simp only [List.map_cons] at hrun
        simp [hrun, hfin]
      · exfalso
        refine h ⟨by simp, ?_⟩
        simp only [List.map_cons, List.cons_append, sumRows_cons]
        omega

theorem scanSpec_nilFiles (pcf : Batch → List Scalar → Batch) (opener : Opener)
    (pv : List Scalar) :
    ∀ r : Option Nat, ScanSpec pcf opener [] pv [] [] r := by
  intro r
  have hrun := run_none (okProj pcf) opener ⟨[], r, .Scan pv []⟩
    ⟨[], r, .Idle⟩ (poll_idle_nil (okProj pcf) opener r)
  unfold ScanSpec
  simp only [List.map_nil, List.nil_append]
  refine ⟨?_, fun h => absurd h (truncCond_nil r), fun _ => ?_⟩
  · rw [hrun, govern_nil]
    rfl
  · rw [hrun, remainAfter_nil]

theorem run_scan_full (pcf : Batch → List Scalar → Batch) (opener : Opener)
    (bs : PartitionedFile → List Batch) :
    ∀ files : List PartitionedFile, envOk opener bs files →
      ∀ (pv : List Scalar) (cs : List Batch) (r : Option Nat),
        ScanSpec pcf opener files pv cs (projFiles pcf bs files) r := by
  intro files
  induction files with
  | nil =>
    intro _ pv cs
    induction cs with
    | nil => exact fun r => scanSpec_nilFiles pcf opener pv r
    | cons b cs' ihc =>
      exact scanSpec_cons pcf opener [] pv (projFiles pcf bs []) b cs' ihc
  | cons f fs ihf =>
    intro henv pv cs
    have henvf : opener f.object_meta f.range = .ok ((bs f).map Except.ok) :=
      henv f (by simp)
    have henv' : envOk opener bs fs := fun g hg => henv g (by simp [hg])
    induction cs with
    | nil =>
      intro r
      have hpoll : poll_inner (okProj pcf) opener ⟨f :: fs, r, .Scan pv []⟩
          = poll_inner (okProj pcf) opener
              ⟨fs, r, .Scan f.partition_values ((bs f).map Except.ok)⟩ := by
        rcases hbf : bs f with _ | ⟨b, bt⟩ <;>
          simp [poll_inner, goIdle, henvf, hbf]
      have hrc := run_congr (okProj pcf) opener ⟨f :: fs, r, .Scan pv []⟩
        ⟨fs, r, .Scan f.partition_values ((bs f).map Except.ok)⟩ hpoll
      have hspec := ihf henv' f.partition_values (bs f) r
      unfold ScanSpec at hspec ⊢
      simp only [List.map_nil, List.nil_append, projFiles_cons]
      rw [hrc]
      exact hspec
    | cons b cs' ihc =>
      exact scanSpec_cons pcf opener (f :: fs) pv (projFiles pcf bs (f :: fs))
        b cs' ihc

theorem run_idle_full (pcf : Batch → List Scalar → Batch) (opener : Opener)
    (bs : PartitionedFile → List Batch) (files : List PartitionedFile)
    (henv : envOk opener bs files) (r : Option Nat) :
    (runStream (okProj pcf) opener ⟨files, r, .Idle⟩).1
        = (govern r (projFiles pcf bs files)).map Except.ok
      ∧ (TruncCond r (projFiles pcf bs files) →
          (runStream (okProj pcf) opener ⟨files, r, .Idle⟩).2.remain = some 0
            ∧ (runStream (okProj pcf) opener ⟨files, r, .Idle⟩).2.state = .Limit)
      ∧ (¬ TruncCond r (projFiles pcf bs files) →
          (runStream (okProj pcf) opener ⟨files, r, .Idle⟩).2
            = ⟨[], remainAfter r (projFiles pcf bs files), .Idle⟩) := by
  have hspec := run_scan_full pcf opener bs files henv [] [] r
  unfold ScanSpec at hspec
  simp only [List.map_nil, List.nil_append] at hspec
  have hrc := run_congr (okProj pcf) opener ⟨files, r, .Scan [] []⟩
    ⟨files, r, .Idle⟩ (poll_scan_nil (okProj pcf) opener files r [])
  rw [hrc] at hspec
  exact hspec

/-! ### Row counts of an emitted element list, and the budget relation of a
single poll -/

/-- Total rows across the `Ok` elements yielded by the outer stream. -/
def rowsOfRun (xs : List (Except Err Batch)) : Nat :=
  (xs.map (fun x => match x with | .ok b => b.length | .error _ => 0)).sum

theorem rowsOfRun_map_ok (l : List Batch) :
    rowsOfRun (l.map Except.ok) = sumRows l := by
  induction l with
  | nil => rfl
  | cons b t ih => simp [rowsOfRun, sumRows] at ih ⊢; omega

/-- How one poll may change the budget: `none` stays `none`; `some` may
only decrease, and a positive budget stays positive unless the poll ended
in the `Limit` state. -/
abbrev remainStep (r r' : Option Nat) (st' : FileStreamState) : Prop :=
  (r = none → r' = none)
    ∧ ∀ k : Nat, r = some k →
        ∃ k' : Nat, r' = some k' ∧ k' ≤ k ∧
          (0 < k → 0 < k' ∨ st' = .Limit)

theorem remainStep_id (r : Option Nat) (st' : FileStreamState) :
    remainStep r r st' := by
  refine ⟨fun h => h, fun k hk => ⟨k, hk, Nat.le_refl k, fun hp => Or.inl hp⟩⟩


theorem processResult_remain (pc : Projector) (files : List PartitionedFile)
    (r : Option Nat) (pv : List Scalar) (res : Except Err Batch)
    (rest : List (Except Err Batch)) :
    remainStep r (processResult pc files r pv res rest).2.remain
      (processResult pc files r pv res rest).2.state := by
  unfold processResult
  rcases hb : res.bind (fun bb => pc bb pv) with e | batch <;> simp only [hb]
  · exact remainStep_id r _
  · split
    · exact ⟨fun _ => rfl, fun k hk => by cases hk⟩
    · rename_i k
      split
      · rename_i hk
        constructor
        · intro hc
          cases hc
        · intro k0 hk0
          obtain rfl : k = k0 := by cases hk0; rfl
          exact ⟨k - batch.length, rfl, by omega, fun _ => Or.inl (by omega)⟩
      · rename_i hk
        constructor
        · intro hc
          cases hc
        · intro k0 hk0
          obtain rfl : k = k0 := by cases hk0; rfl
          exact ⟨0, rfl, by omega, fun _ => Or.inr rfl⟩

theorem goIdle_remain (pc : Projector) (opener : Opener) (r : Option Nat) :
    ∀ files : List PartitionedFile,
      remainStep r (goIdle pc opener r files).2.remain
        (goIdle pc opener r files).2.state := by
  intro files
  induction files with
  | nil => exact remainStep_id r _
  | cons f fs ih =>
    rcases ho : opener f.object_meta f.range with e | rs
    · simp only [goIdle, ho]
      exact remainStep_id r _
    · rcases rs with _ | ⟨res, rest⟩
      · simp only [goIdle, ho]
        exact ih
      · simp only [goIdle, ho]
        exact processResult_remain pc fs r f.partition_values res rest

theorem poll_remain (pc : Projector) (opener : Opener) (s : FileStream) :
    remainStep s.remain (poll_inner pc opener s).2.remain
      (poll_inner pc opener s).2.state := by
  rcases s with ⟨files, r, st⟩
  rcases st with _ | ⟨fut, pv⟩ | ⟨pv, reader⟩ | _ | _
  · exact goIdle_remain pc opener r files
  · rcases fut with e | rs
    · exact remainStep_id r _
    · rcases rs with _ | ⟨res, rest⟩
      · exact goIdle_remain pc opener r files
      · exact processResult_remain pc files r pv res rest
  · rcases reader with _ | ⟨res, rest⟩
    · exact goIdle_remain pc opener r files
    · exact processResult_remain pc files r pv res rest
  · exact remainStep_id r _
  · exact remainStep_id r _

/-! ### Concrete fixtures used by witnesses and counterexamples -/

/-- The identity projector (fallible interface). -/
def pcId : Projector := fun b _ => Except.ok b

/-- The identity pure projector. -/
def pcfId : Batch → List Scalar → Batch := fun b _ => b

/-- A file descriptor with no byte range and no partition values. -/
def f0 : PartitionedFile := ⟨0, none, []⟩

/-- An opener under which every file yields one two-row batch. -/
def opener22 : Opener := fun _ _ => Except.ok [Except.ok [10, 20]]

/-- The batch function matching `opener22`. -/
def bs22 : PartitionedFile → List Batch := fun _ => [[10, 20]]

/-- An opener under which every file yields one zero-row batch. -/
def openerZero : Opener := fun _ _ => Except.ok [Except.ok []]

/-- The batch function matching `openerZero`. -/
def bsZero : PartitionedFile → List Batch := fun _ => [[]]

/-- An opener that always fails at open time. -/
def openerFail : Opener := fun _ _ => Except.error 5

/-- A projector that always fails. -/
def pcFail : Projector := fun _ _ => Except.error 7

/-! ### The claims -/

/-- Claim C1: Row-limit soundness — with initial limit `some l`, an
environment whose opens and sub-stream batches all succeed, and a
row-preserving partition-column projector, the sum of the row counts of
all batches emitted by the outer stream is at most `l`, and equals the
minimum of `l` and the total number of available rows across all files. -/
theorem c1_row_limit_soundness (pcf : Batch → List Scalar → Batch)
    (opener : Opener) (bs : PartitionedFile → List Batch)
    (files : List PartitionedFile) (l : Nat)
    (henv : envOk opener bs files)
    (hlen : ∀ (b : Batch) (pv : List Scalar), (pcf b pv).length = b.length) :
    rowsOfRun (runStream (okProj pcf) opener (FileStream.new files (some l))).1
        ≤ l
      ∧ rowsOfRun
            (runStream (okProj pcf) opener (FileStream.new files (some l))).1
          = min l (sumRows ((files.map bs).flatten)) := by
  have h := (run_idle_full pcf opener bs files henv (some l)).1
  unfold FileStream.new
  rw [h, rowsOfRun_map_ok, govern_rows, sumRows_projFiles pcf bs hlen files]
  exact ⟨Nat.min_le_left _ _, rfl⟩

theorem c1_row_limit_soundness_witness :
    rowsOfRun (runStream (okProj pcfId) opener22 (FileStream.new [f0] (some 1))).1
        ≤ 1
      ∧ rowsOfRun
            (runStream (okProj pcfId) opener22 (FileStream.new [f0] (some 1))).1
          = min 1 (sumRows (([f0].map bs22).flatten)) :=
  c1_row_limit_soundness pcfId opener22 bs22 [f0] 1
    (fun _ _ => rfl) (fun _ _ => rfl)

/-- Claim C2 counterexample: one file with a single two-row batch and
limit 2 (limit exactly equal to the total available rows).  The claim says
the stream reaches a natural end-of-sequence with the queue exhausted in
`Idle` rather than the `Limit` state; the code instead takes the
truncation branch (the guard is the strict `remain > num_rows`) and ends
in the `Limit` state. -/
theorem c2_counterexample :
    (runStream pcId opener22 (FileStream.new [f0] (some 2))).2.state
        = FileStreamState.Limit
      ∧ (runStream pcId opener22 (FileStream.new [f0] (some 2))).2.state
          ≠ FileStreamState.Idle := by
  refine ⟨rfl, ?_⟩
  intro h
  rw [show (runStream pcId opener22 (FileStream.new [f0] (some 2))).2.state
      = FileStreamState.Limit from rfl] at h
  exact FileStreamState.noConfusion h

/-- Claim C2 amended: the pass-through branch of the governor requires the
remaining budget `r` to strictly exceed the batch's row count `n`: then
the budget drops by `n` and the batch passes through unchanged.  When
`r = n` the emitted batch is `slice(0, n)`, which equals the whole batch,
but the budget is set to 0 and the state transitions to `Limit`; hence
when the limit exactly equals the total available rows the stream emits
every row but terminates in the `Limit` state, not by queue exhaustion. -/
theorem c2_amended (pc : Projector) (opener : Opener)
    (files : List PartitionedFile) (pv : List Scalar) (b b' : Batch)
    (rest : List (Except Err Batch)) (r : Nat) (hb : pc b pv = .ok b') :
    (b'.length < r →
        poll_inner pc opener ⟨files, some r, .Scan pv (.ok b :: rest)⟩
          = (some (.ok b'), ⟨files, some (r - b'.length), .Scan pv rest⟩))
      ∧ (r = b'.length →
          poll_inner pc opener ⟨files, some r, .Scan pv (.ok b :: rest)⟩
            = (some (.ok b'), ⟨files, some 0, .Limit⟩))
      ∧ (∀ (pcf : Batch → List Scalar → Batch)
            (bs : PartitionedFile → List Batch)
            (gs : List PartitionedFile) (l : Nat), envOk opener bs gs →
            (∀ (bb : Batch) (pvv : List Scalar),
              (pcf bb pvv).length = bb.length) →
            sumRows ((gs.map bs).flatten) = l → 0 < l →
            (runStream (okProj pcf) opener (FileStream.new gs (some l))).2.state
              = .Limit) := by
  refine ⟨fun h => poll_scan_ok_pass pc opener files pv b b' rest r hb h,
    fun h => ?_, fun pcf bs gs l henv hlen htot hpos => ?_⟩
  · have hpoll := poll_scan_ok_trunc pc opener files pv b b' rest r hb
      (by omega)
    have hslice : sliceBatch b' 0 r = b' := by
      subst h
      simp [sliceBatch]
    rw [hpoll, hslice]
  · have hmain := (run_idle_full pcf opener bs gs henv (some l)).2.1
    have hsum : sumRows (projFiles pcf bs gs) = l := by
      rw [sumRows_projFiles pcf bs hlen gs, htot]
    have htc : TruncCond (some l) (projFiles pcf bs gs) :=
      ⟨sumRows_pos_ne_nil _ (by omega), by omega⟩
    unfold FileStream.new
    exact (hmain htc).2

theorem c2_amended_witness :
    (([1, 2] : Batch).length < 3 →
        poll_inner pcId opener22 ⟨[], some 3, .Scan [] (.ok [1, 2] :: [])⟩
          = (some (.ok [1, 2]), ⟨[], some (3 - ([1, 2] : Batch).length),
              .Scan [] []⟩))
      ∧ (3 = ([1, 2] : Batch).length →
          poll_inner pcId opener22 ⟨[], some 3, .Scan [] (.ok [1, 2] :: [])⟩
            = (some (.ok [1, 2]), ⟨[], some 0, .Limit⟩))
      ∧ (∀ (pcf : Batch → List Scalar → Batch)
            (bs : PartitionedFile → List Batch)
            (gs : List PartitionedFile) (l : Nat), envOk opener22 bs gs →
            (∀ (bb : Batch) (pvv : List Scalar),
              (pcf bb pvv).length = bb.length) →
            sumRows ((gs.map bs).flatten) = l → 0 < l →
            (runStream (okProj pcf) opener22
                (FileStream.new gs (some l))).2.state = .Limit) :=
  c2_amended pcId opener22 [] [] [1, 2] [1, 2] [] 3 rfl

/-- Claim C3: truncating case — when a projected batch of `n` rows arrives
with remaining budget `r < n`, the emitted element is the prefix slice
`batch.slice(0, r)` (of length exactly `r`), the budget is set to 0, the
driver transitions to `Limit`, and (by terminality of `Limit`) that
truncated batch is the last element the stream ever yields. -/
theorem c3_truncating_case (pc : Projector) (opener : Opener)
    (files : List PartitionedFile) (pv : List Scalar) (b b' : Batch)
    (rest : List (Except Err Batch)) (r : Nat)
    (hb : pc b pv = .ok b') (hr : r < b'.length) :
    poll_inner pc opener ⟨files, some r, .Scan pv (.ok b :: rest)⟩
        = (some (.ok (sliceBatch b' 0 r)), ⟨files, some 0, .Limit⟩)
      ∧ sliceBatch b' 0 r = b'.take r
      ∧ (sliceBatch b' 0 r).length = r
      ∧ runStream pc opener ⟨files, some 0, .Limit⟩
          = ([], ⟨files, some 0, .Limit⟩) := by
  refine ⟨poll_scan_ok_trunc pc opener files pv b b' rest r hb (by omega),
    by simp [sliceBatch], ?_,
    run_terminal pc opener ⟨files, some 0, .Limit⟩ (Or.inr rfl)⟩
  simp only [sliceBatch, List.drop_zero, List.length_take]
  omega

theorem c3_truncating_case_witness :
    poll_inner pcId opener22 ⟨[], some 1, .Scan [] (.ok [10, 20] :: [])⟩
        = (some (.ok (sliceBatch [10, 20] 0 1)), ⟨[], some 0, .Limit⟩)
      ∧ sliceBatch [10, 20] 0 1 = ([10, 20] : Batch).take 1
      ∧ (sliceBatch [10, 20] 0 1).length = 1
      ∧ runStream pcId opener22 ⟨[], some 0, .Limit⟩
          = ([], ⟨[], some 0, .Limit⟩) :=
  c3_truncating_case pcId opener22 [] [] [10, 20] [10, 20] [] 1 rfl
    (by decide)

/-- Claim C4: terminality — in the `Limit` and `Error` states every poll
of the stream returns end-of-sequence without changing the state, and the
whole remaining run yields no further element. -/
theorem c4_terminality (pc : Projector) (opener : Opener) (s : FileStream)
    (h : s.state = .Limit ∨ s.state = .Error) :
    poll_inner pc opener s = (none, s) ∧ runStream pc opener s = ([], s) :=
  ⟨poll_terminal pc opener s h.symm, run_terminal pc opener s h.symm⟩

theorem c4_terminality_witness :
    poll_inner pcId opener22 ⟨[f0], some 0, .Limit⟩
        = (none, ⟨[f0], some 0, .Limit⟩)
      ∧ runStream pcId opener22 ⟨[f0], some 0, .Limit⟩
          = ([], ⟨[f0], some 0, .Limit⟩) :=
  c4_terminality pcId opener22 ⟨[f0], some 0, .Limit⟩ (Or.inl rfl)

/-- Claim C5: error propagation — an open-future error, a sub-stream
error and a partition-projection failure are each delivered exactly once
as the next element, with the driver moving to `Error` on that same poll;
the new state keeps the remaining file queue untouched (it is never
drained further, and the failed future/sub-stream is dropped), and from
`Error` every subsequent poll returns end-of-sequence. -/
theorem c5_error_propagation (pc : Projector) (opener : Opener)
    (files fs : List PartitionedFile) (f : PartitionedFile) (r : Option Nat)
    (pv : List Scalar) (b : Batch) (e e2 e3 : Err)
    (rest : List (Except Err Batch))
    (ho : opener f.object_meta f.range = .error e)
    (hb : pc b pv = .error e2) :
    (poll_inner pc opener ⟨f :: fs, r, .Idle⟩
        = (some (.error e), ⟨fs, r, .Error⟩))
      ∧ (poll_inner pc opener ⟨files, r, .Open (.error e3) pv⟩
          = (some (.error e3), ⟨files, r, .Error⟩))
      ∧ (poll_inner pc opener ⟨files, r, .Scan pv (.error e3 :: rest)⟩
          = (some (.error e3), ⟨files, r, .Error⟩))
      ∧ (poll_inner pc opener ⟨files, r, .Scan pv (.ok b :: rest)⟩
          = (some (.error e2), ⟨files, r, .Error⟩))
      ∧ (poll_inner pc opener ⟨files, r, .Error⟩ = (none, ⟨files, r, .Error⟩))
      ∧ (runStream pc opener ⟨files, r, .Error⟩
          = ([], ⟨files, r, .Error⟩)) :=
  ⟨poll_idle_openErr pc opener f fs r e ho,
    poll_open_resolveErr pc opener files r pv e3,
    poll_scan_decodeErr pc opener files r pv e3 rest,
    poll_scan_projectErr pc opener files r pv b e2 rest hb,
    poll_terminal pc opener ⟨files, r, .Error⟩ (Or.inl rfl),
    run_terminal pc opener ⟨files, r, .Error⟩ (Or.inl rfl)⟩

theorem c5_error_propagation_witness :
    (poll_inner pcFail openerFail ⟨f0 :: [], none, .Idle⟩
        = (some (.error 5), ⟨[], none, .Error⟩))
      ∧ (poll_inner pcFail openerFail ⟨[], none, .Open (.error 9) []⟩
          = (some (.error 9), ⟨[], none, .Error⟩))
      ∧ (poll_inner pcFail openerFail ⟨[], none, .Scan [] (.error 9 :: [])⟩
          = (some (.error 9), ⟨[], none, .Error⟩))
      ∧ (poll_inner pcFail openerFail ⟨[], none, .Scan [] (.ok [1] :: [])⟩
          = (some (.error 7), ⟨[], none, .Error⟩))
      ∧ (poll_inner pcFail openerFail ⟨[], none, .Error⟩
          = (none, ⟨[], none, .Error⟩))
      ∧ (runStream pcFail openerFail ⟨[], none, .Error⟩
          = ([], ⟨[], none, .Error⟩)) :=
  c5_error_propagation pcFail openerFail [] [] f0 none [] [1] 5 7 9 [] rfl rfl

/-- Claim C6 counterexample: limit `some 0`, one file whose sub-stream
yields a single zero-row batch.  The claim says a zero-row batch is a
no-op for the limit governor and never causes a transition to `Limit`;
in the code the governor's guard `remain > num_rows` is false for
`0 > 0`, so the zero-row batch is emitted (sliced to zero rows, i.e.
unchanged) and the driver transitions to `Limit` on its account. -/
theorem c6_counterexample :
    (runStream pcId openerZero (FileStream.new [f0] (some 0))).1
        = [Except.ok []]
      ∧ (runStream pcId openerZero (FileStream.new [f0] (some 0))).2.state
          = FileStreamState.Limit
      ∧ (runStream pcId openerZero (FileStream.new [f0] (some 0))).2.remain
          = some 0 :=
  ⟨rfl, rfl, rfl⟩

/-- Claim C6 amended: a zero-row projected batch is emitted as-is and the
remaining budget is unchanged; no transition to `Limit` occurs on its
account provided the budget is `none` or positive.  If the budget is
already `some 0` (initial limit 0), the zero-row batch is still emitted
unchanged (its zero-length slice is itself) but the driver transitions to
`Limit`. -/
theorem c6_amended (pc : Projector) (opener : Opener)
    (files : List PartitionedFile) (pv : List Scalar) (b b' : Batch)
    (rest : List (Except Err Batch)) (hb : pc b pv = .ok b')
    (hz : b'.length = 0) :
    (poll_inner pc opener ⟨files, none, .Scan pv (.ok b :: rest)⟩
        = (some (.ok b'), ⟨files, none, .Scan pv rest⟩))
      ∧ (∀ k : Nat, 0 < k →
          poll_inner pc opener ⟨files, some k, .Scan pv (.ok b :: rest)⟩
            = (some (.ok b'), ⟨files, some k, .Scan pv rest⟩))
      ∧ (poll_inner pc opener ⟨files, some 0, .Scan pv (.ok b :: rest)⟩
          = (some (.ok b'), ⟨files, some 0, .Limit⟩)) := by
  obtain rfl : b' = [] := List.length_eq_zero.mp hz
  refine ⟨poll_scan_ok_none pc opener files pv b [] rest hb,
    fun k hk => ?_, ?_⟩
  · have h := poll_scan_ok_pass pc opener files pv b [] rest k hb
      (by simpa using hk)
    simpa using h
  · have h := poll_scan_ok_trunc pc opener files pv b [] rest 0 hb
      (by simp)
    simpa [sliceBatch] using h

theorem c6_amended_witness :
    (poll_inner pcId opener22 ⟨[f0], none, .Scan [] (.ok [] :: [])⟩
        = (some (.ok []), ⟨[f0], none, .Scan [] []⟩))
      ∧ (∀ k : Nat, 0 < k →
          poll_inner pcId opener22 ⟨[f0], some k, .Scan [] (.ok [] :: [])⟩
            = (some (.ok []), ⟨[f0], some k, .Scan [] []⟩))
      ∧ (poll_inner pcId opener22 ⟨[f0], some 0, .Scan [] (.ok [] :: [])⟩
          = (some (.ok []), ⟨[f0], some 0, .Limit⟩)) :=
  c6_amended pcId opener22 [f0] [] [] [] [] rfl rfl

/-- Claim C7: order preservation — over a good environment the outer
stream with no limit emits exactly the concatenation, in file-group
order, of each file's projected sub-stream output (so a file yielding no
batches contributes nothing and the driver silently advances); with a
limit `some l` the emitted rows form a prefix of that concatenation's
rows; and an empty file group yields immediate end-of-sequence with
nothing emitted, for every projector and opener (no open is attempted). -/
theorem c7_order_preservation (pcf : Batch → List Scalar → Batch)
    (opener : Opener) (bs : PartitionedFile → List Batch)
    (files : List PartitionedFile) (henv : envOk opener bs files) :
    ((runStream (okProj pcf) opener (FileStream.new files none)).1
        = (projFiles pcf bs files).map Except.ok)
      ∧ (∀ l : Nat, ∃ gs : List Batch,
          (runStream (okProj pcf) opener (FileStream.new files (some l))).1
              = gs.map Except.ok
            ∧ gs.flatten <+: (projFiles pcf bs files).flatten)
      ∧ (∀ (pc2 : Projector) (op2 : Opener) (r : Option Nat),
          runStream pc2 op2 (FileStream.new [] r) = ([], ⟨[], r, .Idle⟩)) := by
  refine ⟨?_, fun l => ?_, fun pc2 op2 r => ?_⟩
  · have h := (run_idle_full pcf opener bs files henv none).1
    unfold FileStream.new
    rw [h, govern_none]
  · have h := (run_idle_full pcf opener bs files henv (some l)).1
    exact ⟨govern (some l) (projFiles pcf bs files),
      by unfold FileStream.new; exact h,
      govern_flatten_isPre (some l) (projFiles pcf bs files)⟩
  · exact run_none pc2 op2 (FileStream.new [] r) ⟨[], r, .Idle⟩
      (poll_idle_nil pc2 op2 r)

theorem c7_order_preservation_witness :
    ((runStream (okProj pcfId) opener22 (FileStream.new [f0] none)).1
        = (projFiles pcfId bs22 [f0]).map Except.ok)
      ∧ (∀ l : Nat, ∃ gs : List Batch,
          (runStream (okProj pcfId) opener22 (FileStream.new [f0] (some l))).1
              = gs.map Except.ok
            ∧ gs.flatten <+: (projFiles pcfId bs22 [f0]).flatten)
      ∧ (∀ (pc2 : Projector) (op2 : Opener) (r : Option Nat),
          runStream pc2 op2 (FileStream.new [] r) = ([], ⟨[], r, .Idle⟩)) :=
  c7_order_preservation pcfId opener22 bs22 [f0] (fun _ _ => rfl)

/-- Claim C8: projection-then-limit order — for a batch result `Ok b`,
the governor's decision is measured on the projected batch `b'` (its
`length`, not the raw batch's): pass-through decrements by `b'.length`
and truncation slices `b'`; and when projection fails, the error is
emitted, the driver enters `Error`, and the budget is left untouched. -/
theorem c8_projection_before_limit (pc : Projector) (opener : Opener)
    (files : List PartitionedFile) (pv : List Scalar) (b b' : Batch)
    (e : Err) (rest : List (Except Err Batch)) (r : Option Nat) (k : Nat) :
    (pc b pv = .ok b' →
        (poll_inner pc opener ⟨files, none, .Scan pv (.ok b :: rest)⟩
            = (some (.ok b'), ⟨files, none, .Scan pv rest⟩))
          ∧ (b'.length < k →
              poll_inner pc opener ⟨files, some k, .Scan pv (.ok b :: rest)⟩
                = (some (.ok b'),
                    ⟨files, some (k - b'.length), .Scan pv rest⟩))
          ∧ (k ≤ b'.length →
              poll_inner pc opener ⟨files, some k, .Scan pv (.ok b :: rest)⟩
                = (some (.ok (sliceBatch b' 0 k)), ⟨files, some 0, .Limit⟩)))
      ∧ (pc b pv = .error e →
          poll_inner pc opener ⟨files, r, .Scan pv (.ok b :: rest)⟩
            = (some (.error e), ⟨files, r, .Error⟩)) :=
  ⟨fun hb => ⟨poll_scan_ok_none pc opener files pv b b' rest hb,
      fun hk => poll_scan_ok_pass pc opener files pv b b' rest k hb hk,
      fun hk => poll_scan_ok_trunc pc opener files pv b b' rest k hb hk⟩,
    fun hb => poll_scan_projectErr pc opener files r pv b e rest hb⟩

theorem c8_projection_before_limit_witness :
    (pcId [7] [] = .ok [7] →
        (poll_inner pcId opener22 ⟨[], none, .Scan [] (.ok [7] :: [])⟩
            = (some (.ok [7]), ⟨[], none, .Scan [] []⟩))
          ∧ (([7] : Batch).length < 2 →
              poll_inner pcId opener22 ⟨[], some 2, .Scan [] (.ok [7] :: [])⟩
                = (some (.ok [7]),
                    ⟨[], some (2 - ([7] : Batch).length), .Scan [] []⟩))
          ∧ (2 ≤ ([7] : Batch).length →
              poll_inner pcId opener22 ⟨[], some 2, .Scan [] (.ok [7] :: [])⟩
                = (some (.ok (sliceBatch [7] 0 2)), ⟨[], some 0, .Limit⟩)))
      ∧ (pcId [7] [] = .error 3 →
          poll_inner pcId opener22 ⟨[], some 2, .Scan [] (.ok [7] :: [])⟩
            = (some (.error 3), ⟨[], some 2, .Error⟩)) :=
  c8_projection_before_limit pcId opener22 [] [] [7] [7] 3 [] (some 2) 2

/-- Claim C9: budget invariant — across any single poll, a `none` budget
stays `none`; a `some k` budget only decreases; and a strictly positive
budget never becomes 0 except on the poll that enters the `Limit` state.
Hence `remain = some 0` outside `Limit` is only possible when the initial
limit itself was `some 0`. -/
theorem c9_budget_invariant (pc : Projector) (opener : Opener)
    (s : FileStream) :
    (s.remain = none → (poll_inner pc opener s).2.remain = none)
      ∧ (∀ k : Nat, s.remain = some k →
          ∃ k' : Nat, (poll_inner pc opener s).2.remain = some k' ∧ k' ≤ k
            ∧ (0 < k → 0 < k'
                ∨ (poll_inner pc opener s).2.state = .Limit)) :=
  poll_remain pc opener s

theorem c9_budget_invariant_witness :
    ((⟨[f0], some 5, .Idle⟩ : FileStream).remain = none →
        (poll_inner pcId opener22 ⟨[f0], some 5, .Idle⟩).2.remain = none)
      ∧ (∀ k : Nat, (⟨[f0], some 5, .Idle⟩ : FileStream).remain = some k →
          ∃ k' : Nat,
            (poll_inner pcId opener22 ⟨[f0], some 5, .Idle⟩).2.remain
                = some k' ∧ k' ≤ k
              ∧ (0 < k → 0 < k'
                  ∨ (poll_inner pcId opener22
                      ⟨[f0], some 5, .Idle⟩).2.state = .Limit)) :=
  c9_budget_invariant pcId opener22 ⟨[f0], some 5, .Idle⟩

/-- Claim C10: no short-circuit under a zero limit — with limit `some 0`
the driver still pops and opens files and drives each sub-stream: if no
file yields any batch, the run ends with the queue fully exhausted in
`Idle` (every file was opened) and the budget still `some 0`; as soon as
any file yields a first batch, that batch is sliced to zero rows, emitted
as the single final element, and the stream ends in `Limit`.  The adapter
never ends early merely because the budget is already zero. -/
theorem c10_zero_limit_no_short_circuit (pcf : Batch → List Scalar → Batch)
    (opener : Opener) (bs : PartitionedFile → List Batch)
    (files : List PartitionedFile) (henv : envOk opener bs files) :
    ((files.map bs).flatten = [] →
        (runStream (okProj pcf) opener (FileStream.new files (some 0))).1 = []
          ∧ (runStream (okProj pcf) opener (FileStream.new files (some 0))).2
              = ⟨[], some 0, .Idle⟩)
      ∧ ((files.map bs).flatten ≠ [] →
          (runStream (okProj pcf) opener (FileStream.new files (some 0))).1
              = [Except.ok []]
            ∧ (runStream (okProj pcf) opener
                (FileStream.new files (some 0))).2.remain = some 0
            ∧ (runStream (okProj pcf) opener
                (FileStream.new files (some 0))).2.state = .Limit) := by
  have h := run_idle_full pcf opener bs files henv (some 0)
  unfold FileStream.new
  constructor
  · intro hnil
    have hproj : projFiles pcf bs files = [] :=
      (projFiles_eq_nil_iff pcf bs files).mpr hnil
    have h1 := h.1
    have h3 := h.2.2
    rw [hproj] at h1 h3
    rw [govern_nil] at h1
    have h3' := h3 (truncCond_nil (some 0))
    rw [remainAfter_nil] at h3'
    exact ⟨by simpa using h1, h3'⟩
  · intro hne
    have hproj : projFiles pcf bs files ≠ [] := fun hp =>
      hne ((projFiles_eq_nil_iff pcf bs files).mp hp)
    have htc : TruncCond (some 0) (projFiles pcf bs files) :=
      ⟨hproj, Nat.zero_le _⟩
    have h1 := h.1
    rw [govern_zero _ hproj] at h1
    have h2 := h.2.1 htc
    exact ⟨by simpa using h1, h2.1, h2.2⟩

theorem c10_zero_limit_no_short_circuit_witness :
    (([f0].map bsZero).flatten = [] →
        (runStream (okProj pcfId) openerZero (FileStream.new [f0] (some 0))).1
            = []
          ∧ (runStream (okProj pcfId) openerZero
              (FileStream.new [f0] (some 0))).2 = ⟨[], some 0, .Idle⟩)
      ∧ (([f0].map bsZero).flatten ≠ [] →
          (runStream (okProj pcfId) openerZero
              (FileStream.new [f0] (some 0))).1 = [Except.ok []]
            ∧ (runStream (okProj pcfId) openerZero
                (FileStream.new [f0] (some 0))).2.remain = some 0
            ∧ (runStream (okProj pcfId) openerZero
                (FileStream.new [f0] (some 0))).2.state = .Limit) :=
  c10_zero_limit_no_short_circuit pcfId openerZero bsZero [f0]
    (fun _ _ => rfl)
